import Mathlib

/-!
# Verification of the Langyage front-end slice

Shallow embedding of the repository's two source files:

* `src/Recursive_parser/src/recursive_parser_secondary.cpp` — the
  recursive-descent parser (`get_scope`, `get_cmd`, `get_cond`, `get_ass`,
  `get_add`, `get_mul`, `get_pow`, `get_par`, `get_id`, `get_num`,
  `get_scope_end`) together with the global `sce_debt` counter.
* `src/CPU/CPU/Assembler/src/assembler_additional.h` — the assembler's
  declarations, error-check macros (`FREAD_CHECK` / `FWRITE_CHECK`) and
  constants (`ALIGN_TO_INT`, `ALIGN_TO_DOUBLE`, `MAIN_JMP_NAME`).

Modelling conventions:

* The C parser walks a global token array through a global index `id` and
  mutates a global `size_t sce_debt`.  The embedding passes the *remaining*
  token list and the current debt value explicitly; `id++` becomes
  `List.tail`, `CUR_TYPE`/`CUR_OP`/`CUR_NUM` read the head of the list.
* A C parse function returns `B_tree_node*`, where `NULL` signals a syntax
  error while the globals keep their current values; the embedding returns
  `Res.ok node ts debt` or `Res.err ts debt` correspondingly.  `Res.crash`
  marks a null-pointer dereference (undefined behaviour in the C source)
  and `Res.spin` marks exhaustion of the termination fuel.
* Pointer mutation (`scope_end->right = ...`, `root->type = SCS`,
  `cur_node->right = ...`) is modelled by functional tree update; the
  `cur_node` walker of `get_scope`'s sibling loop is represented by its
  position `j` on the right spine of the chain, which is what the pointer
  is: it starts at the head (`j = 0`) and moves one link per iteration.
  `cur_node == NULL` corresponds to `j ≥ spineLen root`.
* Numeric payloads (`btr_elem_t`, a C `double`) are modelled as `Int`;
  every concrete value used in the claims is a small integer on which
  double arithmetic is exact.
-/

namespace Langyage

/-- Operator tags of the token stream (`Ops` in the C source). -/
inductive Ops where
  | ADD | SUB | MUL | DIV | POW | ASS
deriving DecidableEq

/-- Token type tags as compared against `CUR_TYPE` in the C source.
`TEND` models the end of the produced token sequence (the tokenizer is an
external collaborator; reading past the last token matches no expected
type). -/
inductive TokType where
  | NUM | ID | KWD | OP | OBR | CBR | OCBR | CCBR | SMC | TEND
deriving DecidableEq

/-- A token of the stream consumed by the parser. -/
inductive Token where
  | tnum (v : Int)
  | tid (name : String)
  | tkwd (name : String)
  | top (o : Ops)
  | tobr
  | tcbr
  | tocbr
  | tccbr
  | tsmc
  | tend
deriving DecidableEq

/-- The type tag of a token. -/
def Token.type : Token → TokType
  | .tnum _ => .NUM
  | .tid _ => .ID
  | .tkwd _ => .KWD
  | .top _ => .OP
  | .tobr => .OBR
  | .tcbr => .CBR
  | .tocbr => .OCBR
  | .tccbr => .CCBR
  | .tsmc => .SMC
  | .tend => .TEND

/-- `CUR_TYPE`: the type of the current token (head of the remaining list). -/
def curType (ts : List Token) : TokType := (ts.headD .tend).type

/-- `CUR_OP`: the operator payload of the current token.  In the C source this
reads a union field and is only meaningful under a `CUR_TYPE == OP` guard;
the default value is never observed. -/
def curOp (ts : List Token) : Ops :=
  match ts.headD .tend with
  | .top o => o
  | _ => .ADD

/-- `CUR_NUM`: the numeric payload of the current token. -/
def curNum (ts : List Token) : Int :=
  match ts.headD .tend with
  | .tnum v => v
  | _ => 0

/-- `value.var_value` of the current token: its name payload.  Only
meaningful for identifier/keyword tokens, like the union read in the C
source. -/
def curName (ts : List Token) : String :=
  match ts.headD .tend with
  | .tid s => s
  | .tkwd s => s
  | _ => ""

/-- Node type tags of `B_tree_node` (`NUM`, `VAR`, `OP`, `ASS`, `KWD`,
`SMC` statement link, `SCS` scope-sequence head, `SCE` deferred
scope-sequence continuation). -/
inductive NType where
  | NUM | VAR | OP | ASS | KWD | SMC | SCS | SCE
deriving DecidableEq

/-- Value payload of a `B_tree_node` (a tagged union in the C source). -/
inductive NVal where
  | num (v : Int)
  | var (s : String)
  | op (o : Ops)
  | vnil
deriving DecidableEq

/-- `B_tree_node`: a binary AST node with a type tag, a value and two owned
children.  `nil` is the null pointer. -/
inductive BTN where
  | nil
  | node (ty : NType) (val : NVal) (left right : BTN)
deriving DecidableEq

/-- Modelled from the spec: `CR_NUM`, node-constructor macro of the parser's
header (the header is not part of this slice) — creates a number leaf. -/
def CR_NUM (v : Int) (l r : BTN) : BTN := .node .NUM (.num v) l r

/-- Modelled from the spec: `CR_VAR` — creates an identifier-reference node. -/
def CR_VAR (s : String) (l r : BTN) : BTN := .node .VAR (.var s) l r

/-- Modelled from the spec: `CR_OP` — creates a binary-operator node. -/
def CR_OP (o : Ops) (l r : BTN) : BTN := .node .OP (.op o) l r

/-- Modelled from the spec: `CR_ASS` — creates an assignment node
(target on the left, expression on the right). -/
def CR_ASS (l r : BTN) : BTN := .node .ASS .vnil l r

/-- Modelled from the spec: `CR_KWD` — creates a keyword node carrying the
keyword name, with condition on the left and body on the right. -/
def CR_KWD (s : String) (l r : BTN) : BTN := .node .KWD (.var s) l r

/-- Modelled from the spec: `CR_SMC` — creates a statement-terminator node
(`Stmt(cmd, next)`, acting as ";"). -/
def CR_SMC (l r : BTN) : BTN := .node .SMC .vnil l r

/-- Modelled from the spec: `CR_SCS` — creates a scope-sequence head node. -/
def CR_SCS (l r : BTN) : BTN := .node .SCS .vnil l r

/-- Modelled from the spec: `CR_SCE` — creates a deferred scope-sequence
continuation (placeholder) node. -/
def CR_SCE (l r : BTN) : BTN := .node .SCE .vnil l r

/-- The name payload of a node (`node->value.var_value`). -/
def nodeName : BTN → String
  | .node _ (.var s) _ _ => s
  | _ => ""

/-- The type tag at the root of a tree, `none` for the null pointer. -/
def rootTy : BTN → Option NType
  | .nil => none
  | .node t _ _ _ => some t

/-- `root->type = t`: in-place retagging of the root node. -/
def retype : BTN → NType → BTN
  | .nil, _ => .nil
  | .node _ v l r, t => .node t v l r

/-- `root->right`, with null mapped to null. -/
def btnRight : BTN → BTN
  | .nil => .nil
  | .node _ _ _ r => r

/-- Number of nodes on the right spine of a chain (0 for null): the length
of the statement chain headed by the node. -/
def spineLen : BTN → Nat
  | .nil => 0
  | .node _ _ _ r => spineLen r + 1

/-- The nodes of the right spine of a chain, head first. -/
def spine : BTN → List BTN
  | .nil => []
  | .node t v l r => .node t v l r :: spine r

/-- `get_scope_end` (recursive_parser_secondary.cpp:432): walks `right`
links from the given node and returns the last node of the chain; a null
argument is returned unchanged. -/
def get_scope_end : BTN → BTN
  | .nil => .nil
  | .node t v l .nil => .node t v l .nil
  | .node _ _ _ (.node t v l r) => get_scope_end (.node t v l r)

/-- `scope_end->right = x` where `scope_end = get_scope_end root`: the
functional form of attaching `x` at the end of the chain headed by `root`
(a null `root` would make the C store crash; the callers guard it). -/
def set_scope_end_right : BTN → BTN → BTN
  | .nil, _ => .nil
  | .node t v l .nil, x => .node t v l x
  | .node t v l (.node t2 v2 l2 r2), x =>
      .node t v l (set_scope_end_right (.node t2 v2 l2 r2) x)

/-- `for(debt_id < n) root = CR_SCE(NULL, root)`: the debt-payback loop of
`get_scope`, prepending `n` placeholder continuation nodes. -/
def sceChain : Nat → BTN → BTN
  | 0, t => t
  | k + 1, t => CR_SCE .nil (sceChain k t)

/-- The debt-payback chain of `get_cmd` (recursive_parser_secondary.cpp:122
and :157): `cmd_parent = CR_SCE(NULL, NULL)` followed by `sce_debt - 1`
more `CR_SCE` nodes linked through `right`, with `cmd` stored in the `left`
of the last one.  Only ever invoked with a positive debt. -/
def sceDebtChain : Nat → BTN → BTN
  | 0, cmd => CR_SCE cmd .nil
  | 1, cmd => CR_SCE cmd .nil
  | d + 2, cmd => CR_SCE .nil (sceDebtChain (d + 1) cmd)

/-- Outcome of a parser call.  `ok node ts debt` is a non-null return with
the remaining tokens and the value of the global `sce_debt`; `err ts debt`
is a `NULL` return (`SYNTAX_ERROR` or a propagated `CHECK_RET`); `crash`
marks a null-pointer dereference of the C source (undefined behaviour);
`spin` marks fuel exhaustion of the embedding. -/
inductive Res where
  | ok (n : BTN) (ts : List Token) (debt : Nat)
  | err (ts : List Token) (debt : Nat)
  | crash
  | spin
deriving DecidableEq

/-- `get_num` (recursive_parser_secondary.cpp:270): reads `CUR_NUM`,
advances the cursor and returns a number leaf. -/
def get_num (ts : List Token) (debt : Nat) : Res :=
  .ok (CR_NUM (curNum ts) .nil .nil) ts.tail debt

mutual

/-- `get_scope` (recursive_parser_secondary.cpp:40).  On `OCBR`: captures
and resets the debt (`scope_sce_debt`), consumes the brace, parses the
first element (checked), runs the sibling loop until `CCBR`, increments
the debt, consumes the closing brace, promotes the head to `SCS` (wrapping
if it already is one) and pays the captured debt as `SCE` placeholders.
Otherwise delegates to `get_cmd`. -/
def get_scope (fuel : Nat) (ts : List Token) (debt : Nat) : Res :=
  match fuel with
  | 0 => .spin
  | f + 1 =>
    if curType ts = .OCBR then
      match get_scope f ts.tail 0 with
      | .ok root ts1 d1 =>
        match get_scope_loop f root 0 ts1 d1 with
        | .ok root2 ts2 d2 =>
          let root3 := if rootTy root2 = some .SCS then CR_SCS .nil root2
                       else retype root2 .SCS
          .ok (sceChain debt root3) ts2.tail (d2 + 1)
        | e => e
      | .err ts1 d1 => .err ts1 d1
      | e => e
    else
      match get_cmd f ts debt with
      | .ok root ts1 d1 => .ok root ts1 d1
      | .err ts1 d1 => .err ts1 d1
      | e => e
termination_by structural fuel

/-- The `while(CUR_TYPE != CCBR)` sibling loop of `get_scope`
(recursive_parser_secondary.cpp:60): attaches each parsed sibling at the
end of the chain (`scope_end->right = get_scope()` — note: no `CHECK_RET`,
a `NULL` result is stored and the loop continues) and advances `cur_node`
one link (`j` is its spine position).  `cur_node == NULL`
(`j ≥ spineLen root`) makes the next store dereference null. -/
def get_scope_loop (fuel : Nat) (root : BTN) (j : Nat) (ts : List Token)
    (debt : Nat) : Res :=
  match fuel with
  | 0 => .spin
  | f + 1 =>
    if curType ts = .CCBR then
      .ok root ts debt
    else
      if j < spineLen root then
        match get_scope f ts debt with
        | .ok sub ts1 d1 =>
            get_scope_loop f (set_scope_end_right root sub) (j + 1) ts1 d1
        | .err ts1 d1 =>
            get_scope_loop f (set_scope_end_right root .nil) (j + 1) ts1 d1
        | e => e
      else
        match get_scope f ts debt with
        | .spin => .spin
        | _ => .crash
termination_by structural fuel

/-- `get_cmd` (recursive_parser_secondary.cpp:108).  On a keyword: parses a
condition action; otherwise an assignment followed by a mandatory `SMC`.
In both success paths, a positive debt is paid by building the
`sceDebtChain` and resetting the debt to zero; otherwise the command is
wrapped in a `CR_SMC` statement node. -/
def get_cmd (fuel : Nat) (ts : List Token) (debt : Nat) : Res :=
  match fuel with
  | 0 => .spin
  | f + 1 =>
    if curType ts = .KWD then
      match get_cond f ts debt with
      | .ok cmd ts1 d1 =>
        if d1 ≠ 0 then .ok (sceDebtChain d1 cmd) ts1 0
        else .ok (CR_SMC cmd .nil) ts1 d1
      | .err ts1 d1 => .err ts1 d1
      | e => e
    else
      match get_ass f ts debt with
      | .ok cmd ts1 d1 =>
        if curType ts1 = .SMC then
          if d1 ≠ 0 then .ok (sceDebtChain d1 cmd) ts1.tail 0
          else .ok (CR_SMC cmd .nil) ts1.tail d1
        else .err ts1 d1
      | .err ts1 d1 => .err ts1 d1
      | e => e
termination_by structural fuel

/-- `get_cond` (recursive_parser_secondary.cpp:183): keyword (`while`/`if`),
`(` expression `)`, then either a braced command list (note: the first
`get_cmd` result is *not* `CHECK_RET`-checked) or a single command. -/
def get_cond (fuel : Nat) (ts : List Token) (debt : Nat) : Res :=
  match fuel with
  | 0 => .spin
  | f + 1 =>
    match get_id f ts debt with
    | .ok kwd ts1 d1 =>
      if nodeName kwd = "while" ∨ nodeName kwd = "if" then
        if curType ts1 = .OBR then
          match get_add f ts1.tail d1 with
          | .ok br_expr ts3 d3 =>
            if curType ts3 = .CBR then
              if curType ts3.tail = .OCBR then
                match get_cmd f ts3.tail.tail d3 with
                | .ok root ts6 d6 =>
                  match get_cond_loop f root ts6 d6 with
                  | .ok root2 ts7 d7 =>
                      .ok (CR_KWD (nodeName kwd) br_expr root2) ts7.tail d7
                  | e => e
                | .err ts6 d6 =>
                  match get_cond_loop f .nil ts6 d6 with
                  | .ok root2 ts7 d7 =>
                      .ok (CR_KWD (nodeName kwd) br_expr root2) ts7.tail d7
                  | e => e
                | e => e
              else
                match get_cmd f ts3.tail d3 with
                | .ok cmd ts6 d6 =>
                    .ok (CR_KWD (nodeName kwd) br_expr cmd) ts6 d6
                | .err ts6 d6 => .err ts6 d6
                | e => e
            else .err ts3 d3
          | .err ts3 d3 => .err ts3 d3
          | e => e
        else .err ts1 d1
      else .err ts1 d1
    | .err ts1 d1 => .err ts1 d1
    | e => e
termination_by structural fuel

/-- The `while(CUR_TYPE != CCBR)` command loop of `get_cond`
(recursive_parser_secondary.cpp:217): stores each next command into
`cur_node->right` (checked) and moves `cur_node` onto it, overwriting
whatever `right` the attached head carried.  A null `cur_node` (possible
because the loop's entry `root` is unchecked) makes the store dereference
null. -/
def get_cond_loop (fuel : Nat) (cur : BTN) (ts : List Token) (debt : Nat) :
    Res :=
  match fuel with
  | 0 => .spin
  | f + 1 =>
    if curType ts = .CCBR then
      .ok cur ts debt
    else
      match cur with
      | .nil =>
        match get_cmd f ts debt with
        | .spin => .spin
        | _ => .crash
      | .node t v l _ =>
        match get_cmd f ts debt with
        | .ok g ts1 d1 =>
          match get_cond_loop f g ts1 d1 with
          | .ok g2 ts2 d2 => .ok (.node t v l g2) ts2 d2
          | e => e
        | .err ts1 d1 => .err ts1 d1
        | e => e
termination_by structural fuel

/-- `get_ass` (recursive_parser_secondary.cpp:250): identifier, `=`,
expression. -/
def get_ass (fuel : Nat) (ts : List Token) (debt : Nat) : Res :=
  match fuel with
  | 0 => .spin
  | f + 1 =>
    match get_id f ts debt with
    | .ok var ts1 d1 =>
      if curType ts1 = .OP ∧ curOp ts1 = .ASS then
        match get_add f ts1.tail d1 with
        | .ok expr ts2 d2 => .ok (CR_ASS var expr) ts2 d2
        | .err ts2 d2 => .err ts2 d2
        | e => e
      else .err ts1 d1
    | .err ts1 d1 => .err ts1 d1
    | e => e

/-- `get_add` (recursive_parser_secondary.cpp:281): a product followed by
the additive fold loop. -/
def get_add (fuel : Nat) (ts : List Token) (debt : Nat) : Res :=
  match fuel with
  | 0 => .spin
  | f + 1 =>
    match get_mul f ts debt with
    | .ok val ts1 d1 => get_add_loop f val ts1 d1
    | .err ts1 d1 => .err ts1 d1
    | e => e
termination_by structural fuel

/-- The `while` loop of `get_add`: left-folds `+`/`-` over products. -/
def get_add_loop (fuel : Nat) (val : BTN) (ts : List Token) (debt : Nat) :
    Res :=
  match fuel with
  | 0 => .spin
  | f + 1 =>
    if curType ts = .OP ∧ (curOp ts = .ADD ∨ curOp ts = .SUB) then
      match get_mul f ts.tail debt with
      | .ok val2 ts1 d1 => get_add_loop f (CR_OP (curOp ts) val val2) ts1 d1
      | .err ts1 d1 => .err ts1 d1
      | e => e
    else .ok val ts debt
termination_by structural fuel

/-- `get_mul` (recursive_parser_secondary.cpp:304): a power followed by the
multiplicative fold loop. -/
def get_mul (fuel : Nat) (ts : List Token) (debt : Nat) : Res :=
  match fuel with
  | 0 => .spin
  | f + 1 =>
    match get_pow f ts debt with
    | .ok val ts1 d1 => get_mul_loop f val ts1 d1
    | .err ts1 d1 => .err ts1 d1
    | e => e
termination_by structural fuel

/-- The `while` loop of `get_mul`: left-folds `*`/`/` over powers. -/
def get_mul_loop (fuel : Nat) (val : BTN) (ts : List Token) (debt : Nat) :
    Res :=
  match fuel with
  | 0 => .spin
  | f + 1 =>
    if curType ts = .OP ∧ (curOp ts = .MUL ∨ curOp ts = .DIV) then
      match get_pow f ts.tail debt with
      | .ok val2 ts1 d1 => get_mul_loop f (CR_OP (curOp ts) val val2) ts1 d1
      | .err ts1 d1 => .err ts1 d1
      | e => e
    else .ok val ts debt
termination_by structural fuel

/-- `get_pow` (recursive_parser_secondary.cpp:414): an atom followed by the
power fold loop. -/
def get_pow (fuel : Nat) (ts : List Token) (debt : Nat) : Res :=
  match fuel with
  | 0 => .spin
  | f + 1 =>
    match get_par f ts debt with
    | .ok val ts1 d1 => get_pow_loop f val ts1 d1
    | .err ts1 d1 => .err ts1 d1
    | e => e
termination_by structural fuel

/-- The `while` loop of `get_pow`: left-folds `^` over atoms. -/
def get_pow_loop (fuel : Nat) (val : BTN) (ts : List Token) (debt : Nat) :
    Res :=
  match fuel with
  | 0 => .spin
  | f + 1 =>
    if curType ts = .OP ∧ curOp ts = .POW then
      match get_par f ts.tail debt with
      | .ok val2 ts1 d1 => get_pow_loop f (CR_OP .POW val val2) ts1 d1
      | .err ts1 d1 => .err ts1 d1
      | e => e
    else .ok val ts debt
termination_by structural fuel

/-- `get_par` (recursive_parser_secondary.cpp:327): a parenthesised
expression (with mandatory closing parenthesis), a number, or an
identifier. -/
def get_par (fuel : Nat) (ts : List Token) (debt : Nat) : Res :=
  match fuel with
  | 0 => .spin
  | f + 1 =>
    if curType ts = .OBR then
      match get_add f ts.tail debt with
      | .ok val ts1 d1 =>
        if curType ts1 = .CBR then .ok val ts1.tail d1
        else .err ts1 d1
      | .err ts1 d1 => .err ts1 d1
      | e => e
    else if curType ts = .NUM then
      get_num ts debt
    else
      match get_id f ts debt with
      | .ok val ts1 d1 => .ok val ts1 d1
      | .err ts1 d1 => .err ts1 d1
      | e => e
termination_by structural fuel

/-- `get_id` (recursive_parser_secondary.cpp:356): a keyword token that is
`while`/`if` yields a bare keyword node; any other keyword must be a call
`name ( expr )`; a non-keyword token yields a variable reference. -/
def get_id (fuel : Nat) (ts : List Token) (debt : Nat) : Res :=
  match fuel with
  | 0 => .spin
  | f + 1 =>
    if curType ts = .KWD then
      if ¬(curName ts = "while" ∨ curName ts = "if") then
        if curType ts.tail = .OBR then
          match get_add f ts.tail.tail debt with
          | .ok child ts2 d2 =>
            if curType ts2 = .CBR then
              .ok (CR_KWD (curName ts) .nil child) ts2.tail d2
            else .err ts2 d2
          | .err ts2 d2 => .err ts2 d2
          | e => e
        else .err ts.tail debt
      else .ok (CR_KWD (curName ts) .nil .nil) ts.tail debt
    else .ok (CR_VAR (curName ts) .nil .nil) ts.tail debt

termination_by structural fuel
end

/-- Modelled from the spec: numeric evaluation of an expression tree ("the
tree's numeric value"; the evaluator itself is outside this slice).
Only the arithmetic needed by the claims is interpreted; other node shapes
evaluate to `none`. -/
def evalExpr : BTN → Option Int
  | .node .NUM (.num v) _ _ => some v
  | .node .OP (.op .ADD) l r =>
    match evalExpr l, evalExpr r with
    | some a, some b => some (a + b)
    | _, _ => none
  | .node .OP (.op .SUB) l r =>
    match evalExpr l, evalExpr r with
    | some a, some b => some (a - b)
    | _, _ => none
  | .node .OP (.op .MUL) l r =>
    match evalExpr l, evalExpr r with
    | some a, some b => some (a * b)
    | _, _ => none
  | _ => none

/-- The number of deferred continuation (`SCE` / `SeqElem`) nodes in a
tree. -/
def countSCE : BTN → Nat
  | .nil => 0
  | .node t _ l r => (if t = .SCE then 1 else 0) + countSCE l + countSCE r

/-- The sequence-debt component of a successful parse result. -/
def resDebt : Res → Option Nat
  | .ok _ _ d => some d
  | _ => none

/-- The number of deferred continuation nodes in the chain of a successful
parse result. -/
def resSCECount : Res → Option Nat
  | .ok n _ _ => some (countSCE n)
  | _ => none

/-! ### Concrete token families used by the scope-debt claims -/

/-- Tokens of one simple sub-scope `{ a = 1 ; }`. -/
def subToks : List Token :=
  [Token.tocbr, Token.tid "a", Token.top .ASS, Token.tnum 1, Token.tsmc,
   Token.tccbr]

/-- `k` consecutive copies of the sub-scope token block. -/
def repSubs : Nat → List Token
  | 0 => []
  | k + 1 => subToks ++ repSubs k

/-- Tokens of an enclosing scope containing exactly `k` consecutive nested
sub-scopes, each closing with no trailing statement:
`{ { a = 1 ; } … { a = 1 ; } }`. -/
def scopeToks (k : Nat) : List Token :=
  Token.tocbr :: (repSubs k ++ [Token.tccbr])

/-- The AST of the assignment `a = 1`. -/
def assTree : BTN := CR_ASS (CR_VAR "a" .nil .nil) (CR_NUM 1 .nil .nil)

/-- The tree `get_scope` returns for one sub-scope `{ a = 1 ; }` entered
with debt `d`: `d` placeholder nodes over the promoted statement. -/
def subScopeTree (d : Nat) : BTN :=
  sceChain d (BTN.node .SCS .vnil assTree .nil)

/-- The chain of trees the sibling loop of `get_scope` appends for `m`
further sub-scopes, each parsed with an inherited debt of 1. -/
def blockChain : Nat → BTN
  | 0 => .nil
  | m + 1 => CR_SCE .nil (BTN.node .SCS .vnil assTree (blockChain m))

/-- The full AST `get_scope` returns for `scopeToks (m + 1)`. -/
def c1Tree (m : Nat) : BTN :=
  CR_SCS .nil (BTN.node .SCS .vnil assTree (blockChain m))

/-- The AST of `a + b * c` with `*` as the right child of `+`. -/
def c2Tree (a b c : Int) : BTN :=
  CR_OP .ADD (CR_NUM a .nil .nil)
    (CR_OP .MUL (CR_NUM b .nil .nil) (CR_NUM c .nil .nil))

/-- Tokens `^ v₁ ^ v₂ …` continuing a chained power expression. -/
def powTail : List Int → List Token
  | [] => []
  | v :: vs => Token.top .POW :: Token.tnum v :: powTail vs

/-- Left-to-right fold of `^` over a chain of operands: the tree
`(((t ^ v₁) ^ v₂) …)`. -/
def powFold : BTN → List Int → BTN
  | t, [] => t
  | t, v :: vs => powFold (CR_OP .POW t (CR_NUM v .nil .nil)) vs

/-- Tokens of `{ { a = 1 ; } { b = 2 } }`: the second nested sub-scope is
missing its semicolon. -/
def c4Toks : List Token :=
  [Token.tocbr, Token.tocbr, Token.tid "a", Token.top .ASS, Token.tnum 1,
   Token.tsmc, Token.tccbr, Token.tocbr, Token.tid "b", Token.top .ASS,
   Token.tnum 2, Token.tccbr, Token.tccbr]

/-! ### Assembler (`assembler_additional.h`) -/

/-- The assembler error codes referenced by this slice (`asm_err_t` values
returned by the checked operations; the enumeration itself lives outside
the slice, its members are named by the header's macros and the spec). -/
inductive AsmErr where
  | ASM_INVALID_FREAD
  | ASM_INVALID_FWRITE
  | missingEntryLabel
  | unresolvedLabel
deriving DecidableEq

/-- `FREAD_CHECK(read_elems, amount)` (assembler_additional.h:36): compares
the element count returned by `fread` with the requested amount and makes
the enclosing function return `ASM_INVALID_FREAD` when they differ.
`some e` models that early return, `none` models falling through. -/
def FREAD_CHECK (read_elems amount : Nat) : Option AsmErr :=
  if read_elems ≠ amount then some .ASM_INVALID_FREAD else none

/-- `FWRITE_CHECK(written_elems, amount)` (assembler_additional.h:47):
same for `fwrite` and `ASM_INVALID_FWRITE`. -/
def FWRITE_CHECK (written_elems amount : Nat) : Option AsmErr :=
  if written_elems ≠ amount then some .ASM_INVALID_FWRITE else none

/-- Size of a C `char` on the target. -/
def CHAR_SIZE : Nat := 1

/-- Size of a C `int` on the target. -/
def INT_SIZE : Nat := 4

/-- Size of a C `double` on the target. -/
def DOUBLE_SIZE : Nat := 8

/-- `ALIGN_TO_INT = sizeof(int) - sizeof(char)` (assembler_additional.h:110):
padding bytes inserted after a one-byte opcode before an int operand. -/
def ALIGN_TO_INT : Nat := INT_SIZE - CHAR_SIZE

/-- `ALIGN_TO_DOUBLE = sizeof(double) - sizeof(char)`
(assembler_additional.h:111): padding bytes inserted after a one-byte
opcode before a double operand. -/
def ALIGN_TO_DOUBLE : Nat := DOUBLE_SIZE - CHAR_SIZE

/-- `MAIN_JMP_NAME` (assembler_additional.h:112): the reserved entry-label
name. -/
def MAIN_JMP_NAME : String := "main"

/-- The operand size class of an emitted instruction. -/
inductive OperandClass where
  | intOp
  | doubleOp
deriving DecidableEq

/-- Modelled from the spec: the encoded size of one instruction — a
one-byte opcode, the fixed alignment padding for the operand's size class
(`ALIGN_TO_INT` / `ALIGN_TO_DOUBLE`, from the header), then the operand
bytes (`write_char_w_alignment` followed by the operand write; the bodies
of those functions are not in this slice). -/
def instrSize : OperandClass → Nat
  | .intOp => 1 + ALIGN_TO_INT + INT_SIZE
  | .doubleOp => 1 + ALIGN_TO_DOUBLE + DOUBLE_SIZE

/-- Modelled from the spec: the offset at which the operand of an
instruction starting at `base` begins — right after the opcode byte and
the class's padding. -/
def operandStart (base : Nat) : OperandClass → Nat
  | .intOp => base + 1 + ALIGN_TO_INT
  | .doubleOp => base + 1 + ALIGN_TO_DOUBLE

/-- Modelled from the spec: the buffer offset at which the `i`-th
instruction of an emission sequence starts (instructions are written
back-to-back from offset 0). -/
def offsetAt : List OperandClass → Nat → Nat
  | _, 0 => 0
  | [], _ + 1 => 0
  | c :: cs, i + 1 => instrSize c + offsetAt cs i

/-- An entry of the Label Table: a name and its bytecode offset
(`struct Label`, assembler_additional.h:61). -/
structure AsmLabel where
  name : String
  ipPos : Nat
deriving DecidableEq

/-- Modelled from the spec: lookup of a name in the Label Table by exact
name match, scanning in table order. -/
def findLabel (labels : List AsmLabel) (nm : String) : Option Nat :=
  match labels with
  | [] => none
  | l :: ls => if l.name = nm then some l.ipPos else findLabel ls nm

/-- Modelled from the spec: the opcode byte of the unconditional jump (its
concrete value is fixed by the instruction set outside this slice; no claim
depends on it). -/
def JMP_OPCODE : Nat := 1

/-- Little-endian byte encoding of a 4-byte int operand. -/
def encodeIntLE (v : Nat) : List Nat :=
  [v % 256, v / 256 % 256, v / 256 ^ 2 % 256, v / 256 ^ 3 % 256]

/-- Modelled from the spec: the bytes of the synthesized entry jump —
opcode, int-operand padding, then the target offset as the operand. -/
def mainJmpBytes (off : Nat) : List Nat :=
  JMP_OPCODE :: (List.replicate ALIGN_TO_INT 0 ++ encodeIntLE off)

/-- Modelled from the spec: `write_main_jmp` (declared at
assembler_additional.h:152, body not in this slice) — looks up the reserved
entry label; if absent the assembly fails with the missing-entry-label
error and no buffer is produced, otherwise the synthesized jump to the
label's offset is placed at the very start of the final buffer. -/
def write_main_jmp (labels : List AsmLabel) (body : List Nat) :
    Except AsmErr (List Nat) :=
  match findLabel labels MAIN_JMP_NAME with
  | none => .error .missingEntryLabel
  | some off => .ok (mainJmpBytes off ++ body)

/-- Modelled from the spec: `mask_buffer` (declared at
assembler_additional.h:256, body not in this slice) — applies the fixed
single-byte XOR mask to every byte of the buffer. -/
def mask_buffer (buf : List Nat) (mask : Nat) : List Nat :=
  buf.map (fun b => b ^^^ mask)

/-! ## Theorems -/

/-- C5: For every byte buffer `B` and every single-byte mask `m`, applying
the masking transform twice restores the original buffer:
`mask(mask(B, m), m) = B` — the per-byte XOR mask is self-inverse. -/
theorem c5_mask_buffer_involutive (buf : List Nat) (mask : Nat) :
    mask_buffer (mask_buffer buf mask) mask = buf := by
  simp [mask_buffer, List.map_map, Function.comp_def, Nat.xor_cancel_right]

/-- C8: For every read or write count check performed by the assembler's
`FREAD_CHECK` / `FWRITE_CHECK` macros, if the number of elements actually
read or written differs (fewer or more) from the number requested, the
macro makes the enclosing operation return the fatal I/O-mismatch error
(`ASM_INVALID_FREAD` / `ASM_INVALID_FWRITE`) immediately, and otherwise
execution falls through. -/
theorem c8_io_mismatch_fatal (r w a : Nat) :
    (FREAD_CHECK r a = some .ASM_INVALID_FREAD ↔ r ≠ a) ∧
    (FREAD_CHECK r a = none ↔ r = a) ∧
    (FWRITE_CHECK w a = some .ASM_INVALID_FWRITE ↔ w ≠ a) ∧
    (FWRITE_CHECK w a = none ↔ w = a) := by
  by_cases h : r = a <;> by_cases h2 : w = a <;>
    simp [FREAD_CHECK, FWRITE_CHECK, h, h2]

/-- Every instruction's encoded size is a whole number of double-size
units, so instruction boundaries stay double-aligned. -/
theorem instrSize_mod_eight (c : OperandClass) : instrSize c % 8 = 0 := by
  cases c <;> rfl

/-- Every instruction of an emission sequence starts at a double-aligned
offset. -/
theorem offsetAt_mod_eight (prog : List OperandClass) (i : Nat) :
    offsetAt prog i % 8 = 0 := by
  induction prog generalizing i with
  | nil => cases i <;> rfl
  | cons c cs ih =>
    cases i with
    | zero => rfl
    | succ j =>
      have h1 := instrSize_mod_eight c
      have h2 := ih j
      show (instrSize c + offsetAt cs j) % 8 = 0
      omega

/-- C6: During emission, for every instruction with a double-sized operand,
the padding inserted after the one-byte opcode makes the operand begin at
an offset aligned to its natural size (`DOUBLE_SIZE`), and immediately
after the operand is written the next write offset is again a multiple of
the double alignment relative to buffer start. -/
theorem c6_double_alignment (prog : List OperandClass) (i : Nat)
    (_h : prog[i]? = some .doubleOp) :
    operandStart (offsetAt prog i) .doubleOp % DOUBLE_SIZE = 0 ∧
    (offsetAt prog i + instrSize .doubleOp) % DOUBLE_SIZE = 0 := by
  have h8 : offsetAt prog i % 8 = 0 := offsetAt_mod_eight prog i
  constructor
  · show (offsetAt prog i + 1 + 7) % 8 = 0
    omega
  · show (offsetAt prog i + 16) % 8 = 0
    omega

/-- Witness for C6 at the concrete program `[int, double]`, `i = 1`. -/
theorem c6_double_alignment_witness :
    operandStart (offsetAt [OperandClass.intOp, OperandClass.doubleOp] 1)
        .doubleOp % DOUBLE_SIZE = 0 ∧
    (offsetAt [OperandClass.intOp, OperandClass.doubleOp] 1 +
        instrSize .doubleOp) % DOUBLE_SIZE = 0 :=
  c6_double_alignment [OperandClass.intOp, OperandClass.doubleOp] 1 (by decide)

/-- A table none of whose entries carries the requested name resolves to
nothing. -/
theorem findLabel_eq_none (labels : List AsmLabel) (nm : String)
    (h : ∀ l ∈ labels, l.name ≠ nm) : findLabel labels nm = none := by
  induction labels with
  | nil => rfl
  | cons l ls ih =>
    have hl : l.name ≠ nm := h l (by simp)
    simp only [findLabel, if_neg hl]
    exact ih fun x hx => h x (by simp [hx])

/-- C7: If no label carries the reserved entry name (`MAIN_JMP_NAME`,
"main"), finalization fails with the missing-entry-label error and no
output buffer is produced; when the label resolves to offset `p`, the
synthesized unconditional jump with operand `p` is written at the very
start of the final buffer. -/
theorem c7_entry_label (labels : List AsmLabel) (body : List Nat) :
    ((∀ l ∈ labels, l.name ≠ MAIN_JMP_NAME) →
      write_main_jmp labels body = .error .missingEntryLabel) ∧
    (∀ p, findLabel labels MAIN_JMP_NAME = some p →
      write_main_jmp labels body = .ok (mainJmpBytes p ++ body)) := by
  constructor
  · intro h
    unfold write_main_jmp
    rw [findLabel_eq_none labels _ h]
  · intro p hp
    unfold write_main_jmp
    rw [hp]

/-- Witness for C7: a table without "main" fails; a table binding "main"
to offset 16 puts the jump to 16 in front of the body. -/
theorem c7_entry_label_witness :
    write_main_jmp [⟨"loop", 8⟩] [] = .error .missingEntryLabel ∧
    write_main_jmp [⟨"main", 16⟩] [5] = .ok (mainJmpBytes 16 ++ [5]) :=
  ⟨(c7_entry_label [⟨"loop", 8⟩] []).1 (by decide),
   (c7_entry_label [⟨"main", 16⟩] [5]).2 16 (by decide)⟩

/-- C2: For all operands `a`, `b`, `c`, parsing `a + b * c` yields a tree
whose root is the `+` operator with the `*` operator as its right child;
its numeric evaluation is `a + b * c`, so `"2+3*4"` evaluates to 14, not
20 — multiplicative operators bind tighter than additive ones. -/
theorem c2_mul_binds_tighter (a b c : Int) :
    get_add 50 [Token.tnum a, Token.top .ADD, Token.tnum b, Token.top .MUL,
        Token.tnum c] 0 = .ok (c2Tree a b c) [] 0 ∧
    evalExpr (c2Tree a b c) = some (a + b * c) ∧
    evalExpr (c2Tree 2 3 4) = some 14 ∧ some (14 : Int) ≠ some (20 : Int) :=
  ⟨rfl, rfl, rfl, by decide⟩

/-- One iteration of `get_pow`'s fold loop on a `^ v` continuation. -/
theorem pow_loop_step (f : Nat) (val : BTN) (d : Nat) (v : Int)
    (rest : List Token) :
    get_pow_loop (f + 2) val (Token.top .POW :: Token.tnum v :: rest) d
      = get_pow_loop (f + 1) (CR_OP .POW val (CR_NUM v .nil .nil)) rest d :=
  rfl

/-- `get_pow`'s fold loop left-folds an entire `^`-chain. -/
theorem pow_loop_chain (vs : List Int) : ∀ (g : Nat) (val : BTN) (d : Nat),
    get_pow_loop (vs.length + (g + 2)) val (powTail vs) d
      = .ok (powFold val vs) [] d := by
  induction vs with
  | nil => intro g val d; rfl
  | cons v vs ih =>
    intro g val d
    have h1 : (v :: vs).length + (g + 2) = (vs.length + (g + 1)) + 2 := by
      simp [List.length]
      omega
    rw [h1]
    show get_pow_loop ((vs.length + (g + 1)) + 2) val
        (Token.top .POW :: Token.tnum v :: powTail vs) d
      = .ok (powFold val (v :: vs)) [] d
    rw [pow_loop_step]
    exact ih g (CR_OP .POW val (CR_NUM v .nil .nil)) d

/-- Statement-level unfolding of `get_mul` at positive fuel. -/
theorem get_mul_succ (f : Nat) (ts : List Token) (d : Nat) :
    get_mul (f + 1) ts d
      = match get_pow f ts d with
        | .ok val ts1 d1 => get_mul_loop f val ts1 d1
        | .err ts1 d1 => .err ts1 d1
        | e => e := rfl

/-- Statement-level unfolding of `get_add` at positive fuel. -/
theorem get_add_succ (f : Nat) (ts : List Token) (d : Nat) :
    get_add (f + 1) ts d
      = match get_mul f ts d with
        | .ok val ts1 d1 => get_add_loop f val ts1 d1
        | .err ts1 d1 => .err ts1 d1
        | e => e := rfl

/-- Parsing a whole chained power expression `a ^ v₁ ^ v₂ …` yields the
left fold. -/
theorem get_add_pow_chain (a : Int) (vs : List Int) :
    get_add (vs.length + 5) (Token.tnum a :: powTail vs) 0
      = .ok (powFold (CR_NUM a .nil .nil) vs) [] 0 := by
  have h1 : get_pow (vs.length + 3) (Token.tnum a :: powTail vs) 0
      = .ok (powFold (CR_NUM a .nil .nil) vs) [] 0 := by
    show get_pow_loop (vs.length + 2) (CR_NUM a .nil .nil) (powTail vs) 0
      = .ok (powFold (CR_NUM a .nil .nil) vs) [] 0
    exact pow_loop_chain vs 0 (CR_NUM a .nil .nil) 0
  have h2 : get_mul (vs.length + 4) (Token.tnum a :: powTail vs) 0
      = .ok (powFold (CR_NUM a .nil .nil) vs) [] 0 := by
    have e : vs.length + 4 = (vs.length + 3) + 1 := rfl
    rw [e, get_mul_succ, h1]
    rfl
  have e : vs.length + 5 = (vs.length + 4) + 1 := rfl
  rw [e, get_add_succ, h2]
  rfl

/-- C3: For every chained power expression `a ^ v₁ ^ v₂ …`, the `^`
operator folds left-to-right; in particular `"2^3^2"` parses to the tree
of `(2^3)^2`, which differs from the tree of `2^(3^2)`. -/
theorem c3_pow_left_assoc (a : Int) (vs : List Int) :
    get_add (vs.length + 5) (Token.tnum a :: powTail vs) 0
      = .ok (powFold (CR_NUM a .nil .nil) vs) [] 0 ∧
    get_add 10 [Token.tnum 2, Token.top .POW, Token.tnum 3, Token.top .POW,
        Token.tnum 2] 0
      = .ok (CR_OP .POW (CR_OP .POW (CR_NUM 2 .nil .nil) (CR_NUM 3 .nil .nil))
          (CR_NUM 2 .nil .nil)) [] 0 ∧
    CR_OP .POW (CR_OP .POW (CR_NUM 2 .nil .nil) (CR_NUM 3 .nil .nil))
        (CR_NUM 2 .nil .nil)
      ≠ CR_OP .POW (CR_NUM 2 .nil .nil)
          (CR_OP .POW (CR_NUM 3 .nil .nil) (CR_NUM 2 .nil .nil)) :=
  ⟨get_add_pow_chain a vs, rfl, by decide⟩

/-- C10: `get_scope_end` maps null to null; on any non-null node of a
finite right-linked chain it returns the unique node of that chain whose
right child is absent (and, being a pure traversal, changes no node). -/
theorem c10_get_scope_end (t : BTN) :
    (t = .nil → get_scope_end t = .nil) ∧
    (t ≠ .nil →
      get_scope_end t ∈ spine t ∧
      btnRight (get_scope_end t) = .nil ∧
      ∀ u ∈ spine t, btnRight u = .nil → u = get_scope_end t) := by
  induction t with
  | nil => exact ⟨fun _ => rfl, fun h => absurd rfl h⟩
  | node ty v l r ihl ihr =>
    refine ⟨fun h => BTN.noConfusion h, fun _ => ?_⟩
    cases r with
    | nil =>
      refine ⟨by simp [get_scope_end, spine], rfl, ?_⟩
      intro u hu _
      simp only [spine] at hu
      simpa [spine] using hu
    | node t2 v2 l2 r2 =>
      obtain ⟨hmem, hright, huniq⟩ := ihr.2 (fun h => BTN.noConfusion h)
      refine ⟨?_, ?_, ?_⟩
      · show get_scope_end (BTN.node t2 v2 l2 r2)
            ∈ BTN.node ty v l (BTN.node t2 v2 l2 r2)
                :: spine (BTN.node t2 v2 l2 r2)
        exact List.mem_cons_of_mem _ hmem
      · exact hright
      · intro u hu h0
        have hu2 : u = BTN.node ty v l (BTN.node t2 v2 l2 r2)
            ∨ u ∈ spine (BTN.node t2 v2 l2 r2) := List.mem_cons.mp hu
        rcases hu2 with rfl | hu'
        · exact absurd h0 (by simp [btnRight])
        · exact huniq u hu' h0

/-- Witness for C10 at a one-node chain. -/
theorem c10_get_scope_end_witness :
    get_scope_end (BTN.node .SMC .vnil .nil .nil)
        ∈ spine (BTN.node .SMC .vnil .nil .nil) ∧
    btnRight (get_scope_end (BTN.node .SMC .vnil .nil .nil)) = .nil :=
  ⟨((c10_get_scope_end (BTN.node .SMC .vnil .nil .nil)).2
      (fun h => BTN.noConfusion h)).1,
   ((c10_get_scope_end (BTN.node .SMC .vnil .nil .nil)).2
      (fun h => BTN.noConfusion h)).2.1⟩

/-- C4 (showing the code bug): on `{ { a = 1 ; } { b = 2 } }` — a required
semicolon is missing inside the second nested sub-scope — the nested parse
signals the syntax error (a `NULL` return), but `get_scope`'s sibling loop
stores the unchecked `NULL` (recursive_parser_secondary.cpp:65), keeps
going, consumes the *inner* closing brace as if it ended the enclosing
scope, and returns a partial AST as a success, with the outer closing
brace left unconsumed. -/
theorem c4_swallowed_syntax_error :
    get_scope 20 [Token.tocbr, Token.tid "b", Token.top .ASS, Token.tnum 2,
        Token.tccbr, Token.tccbr] 1
      = .err [Token.tccbr, Token.tccbr] 0 ∧
    get_scope 30 c4Toks 0
      = .ok (CR_SCS .nil (BTN.node .SCS .vnil assTree .nil))
          [Token.tccbr] 1 := by
  constructor
  · decide
  · decide

/-- The debt-payback chain of `get_cmd` is never the null pointer. -/
theorem sceDebtChain_ne_nil (d : Nat) (cmd : BTN) : sceDebtChain d cmd ≠ .nil := by
  cases d with
  | zero => simp [sceDebtChain, CR_SCE]
  | succ n => cases n <;> simp [sceDebtChain, CR_SCE]


theorem sceChain_ne_nil (d : Nat) (t : BTN) (h : t ≠ .nil) :
    sceChain d t ≠ .nil := by
  cases d with
  | zero => exact h
  | succ n => simp [sceChain, CR_SCE]

theorem retype_ne_nil (t : BTN) (ty : NType) (h : t ≠ .nil) :
    retype t ty ≠ .nil := by
  cases t with
  | nil => exact absurd rfl h
  | node a b c r => simp [retype]

theorem set_scope_end_right_ne_nil (root x : BTN) (h : root ≠ .nil) :
    set_scope_end_right root x ≠ .nil := by
  cases root with
  | nil => exact absurd rfl h
  | node t v l r => cases r <;> simp [set_scope_end_right]

theorem get_cmd_ok_ne_nil (f : Nat) (ts : List Token) (d : Nat) (r : BTN)
    (ts' : List Token) (d' : Nat) (h : get_cmd f ts d = .ok r ts' d') :
    r ≠ .nil := by
  cases f with
  | zero => exact Res.noConfusion (show Res.spin = Res.ok r ts' d' from h)
  | succ f =>
    unfold get_cmd at h
    split at h
    · split at h
      · split at h
        · cases h
          exact sceDebtChain_ne_nil _ _
        · cases h
          simp [CR_SMC]
      · exact Res.noConfusion h
      · rename_i e hnok hnerr
        exact (hnok r ts' d' h).elim
    · split at h
      · split at h
        · split at h
          · cases h
            exact sceDebtChain_ne_nil _ _
          · cases h
            simp [CR_SMC]
        · exact Res.noConfusion h
      · exact Res.noConfusion h
      · rename_i e hnok hnerr
        exact (hnok r ts' d' h).elim

theorem get_scope_loop_ok_ne_nil (f : Nat) :
    ∀ (root : BTN) (j : Nat) (ts : List Token) (d : Nat) (r : BTN)
      (ts' : List Token) (d' : Nat), root ≠ .nil →
      get_scope_loop f root j ts d = .ok r ts' d' → r ≠ .nil := by
  induction f with
  | zero =>
    intro root j ts d r ts' d' hr h
    exact Res.noConfusion (show Res.spin = Res.ok r ts' d' from h)
  | succ f ih =>
    intro root j ts d r ts' d' hr h
    unfold get_scope_loop at h
    split at h
    · cases h; exact hr
    · split at h
      · split at h
        · exact ih _ _ _ _ _ _ _ (set_scope_end_right_ne_nil _ _ hr) h
        · exact ih _ _ _ _ _ _ _ (set_scope_end_right_ne_nil _ _ hr) h
        · rename_i e hnok hnerr
          exact (hnok r ts' d' h).elim
      · split at h <;> exact Res.noConfusion h

theorem get_scope_ok_ne_nil (f : Nat) :
    ∀ (ts : List Token) (d : Nat) (r : BTN) (ts' : List Token) (d' : Nat),
      get_scope f ts d = .ok r ts' d' → r ≠ .nil := by
  induction f with
  | zero =>
    intro ts d r ts' d' h
    exact Res.noConfusion (show Res.spin = Res.ok r ts' d' from h)
  | succ f ih =>
    intro ts d r ts' d' h
    unfold get_scope at h
    split at h
    · split at h
      · split at h
        · rename_i e1 root1 ts1 d1 heq1 e2 root2 ts2 d2 heq2
          cases h
          have h1 : root1 ≠ .nil := ih _ _ _ _ _ heq1
          have h2 : root2 ≠ .nil :=
            get_scope_loop_ok_ne_nil f root1 0 ts1 d1 root2 ts2 d2 h1 heq2
          apply sceChain_ne_nil
          split
          · simp [CR_SCS]
          · exact retype_ne_nil _ _ h2
        · rename_i e2 hnok
          exact (hnok r ts' d' h).elim
      · exact Res.noConfusion h
      · rename_i e hnok hnerr
        exact (hnok r ts' d' h).elim
    · split at h
      · rename_i e1 root1 ts1 d1 heq1
        cases h
        exact get_cmd_ok_ne_nil f _ _ _ _ _ heq1
      · exact Res.noConfusion h
      · rename_i e hnok hnerr
        exact (hnok r ts' d' h).elim

theorem c9_scope_debt_increment (f : Nat) (ts : List Token) (d : Nat)
    (root : BTN) (ts' : List Token) (d' : Nat)
    (hoc : curType ts = .OCBR)
    (hok : get_scope f ts d = .ok root ts' d') :
    1 ≤ d' ∧ ∃ core, root = sceChain d core ∧ rootTy core = some .SCS := by
  cases f with
  | zero => exact Res.noConfusion (show Res.spin = Res.ok root ts' d' from hok)
  | succ f =>
    unfold get_scope at hok
    rw [if_pos hoc] at hok
    split at hok
    · split at hok
      · rename_i e1 root1 ts1 d1 heq1 e2 root2 ts2 d2 heq2
        cases hok
        have h1 : root1 ≠ .nil := get_scope_ok_ne_nil f _ _ _ _ _ heq1
        have h2 : root2 ≠ .nil :=
          get_scope_loop_ok_ne_nil f root1 0 ts1 d1 root2 ts2 d2 h1 heq2
        refine ⟨Nat.le_add_left 1 d2,
          (if rootTy root2 = some NType.SCS then CR_SCS BTN.nil root2
           else retype root2 NType.SCS), rfl, ?_⟩
        split
        · simp [CR_SCS, rootTy]
        · cases root2 with
          | nil => exact absurd rfl h2
          | node a b c r => simp [retype, rootTy]
      · rename_i e2 hnok
        exact (hnok root ts' d' hok).elim
    · exact Res.noConfusion hok
    · rename_i e hnok hnerr
      exact (hnok root ts' d' hok).elim

theorem c9_scope_debt_increment_witness :
    1 ≤ 2 ∧ ∃ core, c1Tree 0 = sceChain 0 core ∧ rootTy core = some .SCS :=
  c9_scope_debt_increment 14 (scopeToks 1) 0 (c1Tree 0) [] 2 (by decide)
    (by decide)

/-- Attaching null at the end of a chain changes nothing. -/
theorem set_scope_end_right_nil (root : BTN) :
    set_scope_end_right root .nil = root := by
  induction root with
  | nil => rfl
  | node t v l r ihl ihr =>
    cases r with
    | nil => rfl
    | node t2 v2 l2 r2 =>
      show BTN.node t v l (set_scope_end_right (BTN.node t2 v2 l2 r2) .nil)
        = BTN.node t v l (BTN.node t2 v2 l2 r2)
      rw [ihr]

/-- Attaching is associative when the first attached chain is non-null. -/
theorem set_scope_end_right_assoc (root a b : BTN) (ha : a ≠ .nil) :
    set_scope_end_right (set_scope_end_right root a) b
      = set_scope_end_right root (set_scope_end_right a b) := by
  induction root with
  | nil => rfl
  | node t v l r ihl ihr =>
    cases r with
    | nil =>
      cases a with
      | nil => exact absurd rfl ha
      | node t2 v2 l2 r2 => rfl
    | node t2 v2 l2 r2 =>
      show set_scope_end_right (BTN.node t v l (set_scope_end_right (BTN.node t2 v2 l2 r2) a)) b
        = BTN.node t v l (set_scope_end_right (BTN.node t2 v2 l2 r2) (set_scope_end_right a b))
      have hne : set_scope_end_right (BTN.node t2 v2 l2 r2) a ≠ .nil :=
        set_scope_end_right_ne_nil _ _ (fun h => BTN.noConfusion h)
      cases hh : set_scope_end_right (BTN.node t2 v2 l2 r2) a with
      | nil => exact absurd hh hne
      | node t3 v3 l3 r3 =>
        show BTN.node t v l (set_scope_end_right (BTN.node t3 v3 l3 r3) b) = _
        rw [← hh, ihr]

/-- The spine length of a chain with an attachment. -/
theorem spineLen_set_scope_end_right (root x : BTN) (h : root ≠ .nil) :
    spineLen (set_scope_end_right root x) = spineLen root + spineLen x := by
  induction root with
  | nil => exact absurd rfl h
  | node t v l r ihl ihr =>
    cases r with
    | nil =>
      show spineLen x + 1 = (spineLen (BTN.nil) + 1) + spineLen x
      simp [spineLen]
      omega
    | node t2 v2 l2 r2 =>
      show spineLen (set_scope_end_right (BTN.node t2 v2 l2 r2) x) + 1
        = (spineLen (BTN.node t2 v2 l2 r2) + 1) + spineLen x
      rw [ihr (fun hh => BTN.noConfusion hh)]
      omega

/-- Parsing one sub-scope block `{ a = 1 ; }` under entry debt `d`. -/
theorem sub_step (g d : Nat) (rest : List Token) :
    get_scope (g + 12) (subToks ++ rest) d = .ok (subScopeTree d) rest 1 := rfl

/-- One iteration of `get_scope`'s sibling loop on a successful sub-parse. -/
theorem scope_loop_step (f : Nat) (root : BTN) (j : Nat) (ts : List Token)
    (d : Nat) (sub : BTN) (ts1 : List Token) (d1 : Nat)
    (hc : ¬(curType ts = .CCBR)) (hj : j < spineLen root)
    (hsub : get_scope f ts d = .ok sub ts1 d1) :
    get_scope_loop (f + 1) root j ts d
      = get_scope_loop f (set_scope_end_right root sub) (j + 1) ts1 d1 := by
  conv_lhs => rw [get_scope_loop]
  rw [if_neg hc, if_pos hj, hsub]

/-- The sibling loop over `m` further sub-scope blocks appends the block
chain. -/
theorem c1_loop (m : Nat) : ∀ (g : Nat) (root : BTN) (j : Nat),
    j < spineLen root →
    get_scope_loop (m + (g + 13)) root j (repSubs m ++ [Token.tccbr]) 1
      = .ok (set_scope_end_right root (blockChain m)) [Token.tccbr] 1 := by
  induction m with
  | zero =>
    intro g root j hj
    show get_scope_loop (0 + (g + 13)) root j [Token.tccbr] 1
      = .ok (set_scope_end_right root .nil) [Token.tccbr] 1
    rw [set_scope_end_right_nil]
    rfl
  | succ m ih =>
    intro g root j hj
    have e : (m + 1) + (g + 13) = (m + (g + 13)) + 1 := by omega
    rw [e]
    have hsub : get_scope (m + (g + 13)) (repSubs (m + 1) ++ [Token.tccbr]) 1
        = .ok (subScopeTree 1) (repSubs m ++ [Token.tccbr]) 1 := by
      have e2 : m + (g + 13) = (m + g + 1) + 12 := by omega
      rw [e2]
      exact sub_step (m + g + 1) 1 (repSubs m ++ [Token.tccbr])
    rw [scope_loop_step (m + (g + 13)) root j
        (repSubs (m + 1) ++ [Token.tccbr]) 1 (subScopeTree 1)
        (repSubs m ++ [Token.tccbr]) 1
        (fun hh => TokType.noConfusion
          (show TokType.OCBR = TokType.CCBR from hh)) hj hsub]
    have hroot : root ≠ .nil := by
      intro hh
      rw [hh] at hj
      exact Nat.not_lt_zero j hj
    have hj2 : j + 1 < spineLen (set_scope_end_right root (subScopeTree 1)) := by
      rw [spineLen_set_scope_end_right root _ hroot]
      have : spineLen (subScopeTree 1) = 2 := rfl
      omega
    rw [ih g (set_scope_end_right root (subScopeTree 1)) (j + 1) hj2]
    rw [set_scope_end_right_assoc root (subScopeTree 1) (blockChain m)
        (fun hh => BTN.noConfusion hh)]
    rfl

/-- Unfolding `get_scope` on an open brace through its two stages. -/
theorem get_scope_ocbr (f : Nat) (ts : List Token) (d : Nat)
    (root root2 : BTN) (ts1 ts2 : List Token) (d1 d2 : Nat)
    (hoc : curType ts = .OCBR)
    (h1 : get_scope f ts.tail 0 = .ok root ts1 d1)
    (h2 : get_scope_loop f root 0 ts1 d1 = .ok root2 ts2 d2) :
    get_scope (f + 1) ts d
      = .ok (sceChain d (if rootTy root2 = some .SCS then CR_SCS .nil root2
                         else retype root2 .SCS)) ts2.tail (d2 + 1) := by
  conv_lhs => rw [get_scope]
  rw [if_pos hoc, h1]
  dsimp only
  rw [h2]

/-- C1 (amended): parsing a scope that contains exactly `k = m + 1`
consecutive nested sub-scopes, each closing with no trailing statement,
succeeds and returns a chain containing exactly `k - 1 = m` deferred
continuation (`SCE`) nodes, with the sequence-debt counter equal to 2 (not
0) once the enclosing scope finishes parsing. -/
theorem c1_scope_debt_amended (m : Nat) :
    get_scope (m + 14) (scopeToks (m + 1)) 0 = .ok (c1Tree m) [] 2 ∧
    countSCE (c1Tree m) = m := by
  constructor
  · have hsub : get_scope (m + 13) (scopeToks (m + 1)).tail 0
        = .ok (subScopeTree 0) (repSubs m ++ [Token.tccbr]) 1 := by
      have e2 : m + 13 = (m + 1) + 12 := by omega
      rw [e2]
      exact sub_step (m + 1) 0 (repSubs m ++ [Token.tccbr])
    have hloop : get_scope_loop (m + 13) (subScopeTree 0) 0
        (repSubs m ++ [Token.tccbr]) 1
        = .ok (set_scope_end_right (subScopeTree 0) (blockChain m))
            [Token.tccbr] 1 := by
      have e3 : m + 13 = m + (0 + 13) := by omega
      rw [e3]
      exact c1_loop m 0 (subScopeTree 0) 0 (by decide)
    have e : m + 14 = (m + 13) + 1 := by omega
    rw [e, get_scope_ocbr (m + 13) (scopeToks (m + 1)) 0 (subScopeTree 0)
      (set_scope_end_right (subScopeTree 0) (blockChain m))
      (repSubs m ++ [Token.tccbr]) [Token.tccbr] 1 1 rfl hsub hloop]
    rfl
  · have hbc : countSCE (blockChain m) = m := by
      induction m with
      | zero => rfl
      | succ m ih =>
        simp [blockChain, countSCE, assTree, CR_SCE, CR_ASS, CR_VAR, CR_NUM,
          CR_SCS, ih]
        omega
    simp [c1Tree, countSCE, assTree, CR_SCE, CR_ASS, CR_VAR, CR_NUM, CR_SCS,
      hbc]


/-- C1 (counterexample): at the concrete input `{ { a = 1 ; } { a = 1 ; } }`
— an enclosing scope with exactly `k = 2` consecutive nested sub-scopes,
each closing with no trailing statement — `get_scope` returns a chain with
exactly 1 deferred continuation node (not `k = 2`) and leaves the
sequence-debt counter at 2 (not 0) when the enclosing scope finishes. -/
theorem c1_scope_debt_counterexample :
    get_scope 16 (scopeToks 2) 0 = .ok (c1Tree 1) [] 2 ∧
    resSCECount (get_scope 16 (scopeToks 2) 0) = some 1 ∧
    resDebt (get_scope 16 (scopeToks 2) 0) = some 2 ∧
    ¬(resSCECount (get_scope 16 (scopeToks 2) 0) = some 2 ∧
      resDebt (get_scope 16 (scopeToks 2) 0) = some 0) := by
  refine ⟨by decide, by decide, by decide, by decide⟩

end Langyage
